import Mathlib

/-!
# Verification of `src/assets/plots/runtimes.py`

A shallow embedding of the benchmark-runtime plotting tool (Pipeline 1:
`discover_experiment_data`, `group_input_sizes_by_magnitude`, the data-side
of `plot_grouped_boxplots`, and `main`), together with theorems settling the
specification claims.

Modelling conventions:
* The filesystem is a tree of `FSEntry` values; the root argument of the tool
  is an `Option FSEntry` (`none` models a path that does not exist, a
  `.file` models a path that exists but is not a directory).
* Python `float` values are modelled as exact rationals `ℚ`; `float(line)`
  is modelled by `parseFloat`, an exact-decimal parser for the literal forms
  that occur in `runtimes` files (optional sign, digits, optional fractional
  part, optional exponent).  IEEE-754 rounding, `inf`/`nan` and digit
  underscores are abstracted away.
* Python's stable `sorted` on strings (code-point lexicographic) is modelled
  by Mathlib's stable `List.insertionSort` under the code-point order
  `strLe`; `np.median` is `median` (sort, middle element or mean of the two
  middle elements); `int(np.floor(np.log10 x))` for `x ≥ 1` is
  `natLog10 ⌊x⌋`, exact-real semantics of the float computation.
-/

namespace RuntimesPlot

instance {ε α : Type} [DecidableEq ε] [DecidableEq α] : DecidableEq (Except ε α) := fun x y =>
  match x, y with
  | .ok a, .ok b =>
    if h : a = b then isTrue (by rw [h]) else isFalse (by intro hh; cases hh; exact h rfl)
  | .error e, .error f =>
    if h : e = f then isTrue (by rw [h]) else isFalse (by intro hh; cases hh; exact h rfl)
  | .ok _, .error _ => isFalse (by intro hh; cases hh)
  | .error _, .ok _ => isFalse (by intro hh; cases hh)

/-- A filesystem entry: a directory with children, or a text file with its
lines.  Mirrors the directory trees `tasks_folder/ISk/run_type/runN/runtimes`
the tool walks. -/
inductive FSEntry where
  | dir (name : String) (children : List FSEntry)
  | file (name : String) (lines : List String)

/-- The entry's own name (`Path.name`). -/
def FSEntry.name : FSEntry → String
  | .dir n _ => n
  | .file n _ => n

/-- `Path.is_dir()` for an entry that exists. -/
def FSEntry.isDirB : FSEntry → Bool
  | .dir _ _ => true
  | .file _ _ => false

/-- `parent / name` path lookup: the child entry with the given name.
A real filesystem directory has distinct child names, so `find?` is exact. -/
def lookup (children : List FSEntry) (n : String) : Option FSEntry :=
  children.find? (fun e => e.name == n)

/-! ## Code-point string order (Python `sorted` on `str`) -/

/-- Lexicographic code-point comparison of character lists, as Python
compares strings.  (Structural, hence kernel-computable, unlike
`String.le`.) -/
def charListLe : List Char → List Char → Bool
  | [], _ => true
  | _ :: _, [] => false
  | a :: as, b :: bs =>
    if a.toNat = b.toNat then charListLe as bs else decide (a.toNat < b.toNat)

/-- Python's `≤` on strings: code-point lexicographic. -/
def strLe (a b : String) : Prop := charListLe a.toList b.toList = true

instance : DecidableRel strLe := fun _ _ => instDecidableEqBool _ _

theorem charListLe_total : ∀ as bs, charListLe as bs = true ∨ charListLe bs as = true := by
  intro as
  induction as with
  | nil => intro bs; left; rfl
  | cons a as ih =>
    intro bs
    cases bs with
    | nil => right; rfl
    | cons b bs =>
      simp only [charListLe]
      rcases Nat.lt_trichotomy a.toNat b.toNat with h | h | h
      · left; rw [if_neg (by omega)]; exact decide_eq_true h
      · rw [if_pos h, if_pos h.symm]; exact ih bs
      · right; rw [if_neg (by omega)]; exact decide_eq_true h

theorem charListLe_trans : ∀ as bs cs, charListLe as bs = true → charListLe bs cs = true →
    charListLe as cs = true := by
  intro as
  induction as with
  | nil => intro bs cs _ _; rfl
  | cons a as ih =>
    intro bs cs hab hbc
    cases bs with
    | nil => simp [charListLe] at hab
    | cons b bs =>
      cases cs with
      | nil => simp [charListLe] at hbc
      | cons c cs =>
        simp only [charListLe] at hab hbc ⊢
        by_cases h1 : a.toNat = b.toNat
        · rw [if_pos h1] at hab
          by_cases h2 : b.toNat = c.toNat
          · rw [if_pos h2] at hbc
            rw [if_pos (h1.trans h2)]
            exact ih bs cs hab hbc
          · rw [if_neg h2] at hbc
            have hbc' : b.toNat < c.toNat := of_decide_eq_true hbc
            rw [if_neg (by omega)]
            exact decide_eq_true (by omega)
        · rw [if_neg h1] at hab
          have hab' : a.toNat < b.toNat := of_decide_eq_true hab
          by_cases h2 : b.toNat = c.toNat
          · rw [if_neg (by omega)]
            exact decide_eq_true (by omega)
          · rw [if_neg h2] at hbc
            have hbc' : b.toNat < c.toNat := of_decide_eq_true hbc
            rw [if_neg (by omega)]
            exact decide_eq_true (by omega)

theorem charToNat_injective {a b : Char} (h : a.toNat = b.toNat) : a = b := by
  have hv : a.val = b.val := UInt32.ext h
  cases a with
  | mk av ap =>
    cases b with
    | mk bv bp =>
      cases hv
      rfl

theorem charListLe_antisymm : ∀ as bs, charListLe as bs = true → charListLe bs as = true →
    as = bs := by
  intro as
  induction as with
  | nil =>
    intro bs _ hba
    cases bs with
    | nil => rfl
    | cons b bs => simp [charListLe] at hba
  | cons a as ih =>
    intro bs hab hba
    cases bs with
    | nil => simp [charListLe] at hab
    | cons b bs =>
      simp only [charListLe] at hab hba
      by_cases h1 : a.toNat = b.toNat
      · rw [if_pos h1] at hab
        rw [if_pos h1.symm] at hba
        rw [charToNat_injective h1, ih bs hab hba]
      · rw [if_neg h1] at hab
        rw [if_neg (fun h => h1 h.symm)] at hba
        have h2 : a.toNat < b.toNat := of_decide_eq_true hab
        have h3 : b.toNat < a.toNat := of_decide_eq_true hba
        omega

instance : IsTotal String strLe := ⟨fun a b => charListLe_total a.toList b.toList⟩

instance : IsTrans String strLe :=
  ⟨fun a b c hab hbc => charListLe_trans a.toList b.toList c.toList hab hbc⟩

instance : IsAntisymm String strLe := by
  constructor
  intro a b hab hba
  cases a with
  | mk ad =>
    cases b with
    | mk bd =>
      exact congrArg String.mk (charListLe_antisymm ad bd hab hba)

/-- Ordering of directory entries by name, as `sorted(path.iterdir())`
compares sibling `Path`s. -/
def entryLe (a b : FSEntry) : Prop := strLe a.name b.name

instance : DecidableRel entryLe := fun _ _ => instDecidableEqBool _ _

instance : IsTotal FSEntry entryLe :=
  ⟨fun a b => charListLe_total a.name.toList b.name.toList⟩

instance : IsTrans FSEntry entryLe := ⟨fun _ _ _ hab hbc => charListLe_trans _ _ _ hab hbc⟩

/-! ## Name patterns and line parsing -/

/-- ASCII decimal digit, as `\d` matches in the `IS\d+` / `run\d+` patterns. -/
def isDigitChar (c : Char) : Bool := 48 ≤ c.toNat && c.toNat ≤ 57

/-- `re.match(r"^IS\d+$", s)`: the name is `IS` followed by one or more digits. -/
def isISName (s : String) : Bool :=
  match s.toList with
  | 'I' :: 'S' :: rest => !rest.isEmpty && rest.all isDigitChar
  | _ => false

/-- `re.match(r"^run\d+$", s)`: the name is `run` followed by one or more digits. -/
def isRunName (s : String) : Bool :=
  match s.toList with
  | 'r' :: 'u' :: 'n' :: rest => !rest.isEmpty && rest.all isDigitChar
  | _ => false

/-- The run-type filter: not hidden (no leading dot) and not named `data`. -/
def runTypeKeep (n : String) : Bool :=
  (match n.toList with
   | '.' :: _ => false
   | _ => true) && !(n == "data")

/-- Python `str.strip` whitespace characters (ASCII). -/
def isPySpace (c : Char) : Bool :=
  c == ' ' || c == '\t' || c == '\n' || c == '\r' || c == '\x0B' || c == '\x0C'

/-- `line.strip()`. -/
def pyStrip (s : String) : String :=
  ⟨((s.toList.dropWhile isPySpace).reverse.dropWhile isPySpace).reverse⟩

/-- The numeric value of a digit run, most significant first. -/
def digitsToNat (ds : List Char) : ℕ :=
  ds.foldl (fun a c => 10 * a + (c.toNat - 48)) 0

/-- Split an optional leading sign; `true` means negative. -/
def splitSign : List Char → Bool × List Char
  | '-' :: cs => (true, cs)
  | '+' :: cs => (false, cs)
  | cs => (false, cs)

/-- Split a (possibly empty) leading digit run from the rest. -/
def splitDigits (cs : List Char) : List Char × List Char :=
  (cs.takeWhile isDigitChar, cs.dropWhile isDigitChar)

/-- Parse the optional exponent suffix `([eE][+-]?\d+)?` followed by
end-of-string, returning the exponent (0 when absent), or `none` when the
remainder is not a valid exponent. -/
def parseExpPart : List Char → Option ℤ
  | [] => some 0
  | c :: cs =>
    if c == 'e' || c == 'E' then
      let (neg, cs1) := splitSign cs
      let (ds, rest) := splitDigits cs1
      if ds.isEmpty || !rest.isEmpty then none
      else some (if neg then -(digitsToNat ds : ℤ) else (digitsToNat ds : ℤ))
    else none

/-- The exact rational `±m · 10^k`, built without `ℚ` arithmetic so that it is
kernel-computable (`Rat.mul` and friends are irreducible). -/
def decSciRat (neg : Bool) (m : ℕ) (k : ℤ) : ℚ :=
  let n : ℤ := if neg then -(m : ℤ) else (m : ℤ)
  if 0 ≤ k then mkRat (n * 10 ^ k.toNat) 1 else mkRat n (10 ^ (-k).toNat)

/-- Model of Python `float(s)` on a stripped line, as the exact rational value
of the decimal literal: `[+-]? (\d+ (\.\d*)? | \.\d+) ([eE][+-]?\d+)?`.
`inf`/`nan` and digit underscores are not modelled; IEEE rounding is
abstracted to the exact value. -/
def parseFloat (s : String) : Option ℚ :=
  let (neg, cs1) := splitSign s.toList
  let (intDs, cs2) := splitDigits cs1
  let fracSplit : List Char × List Char :=
    match cs2 with
    | '.' :: rest => splitDigits rest
    | _ => ([], cs2)
  let fracDs := fracSplit.1
  let cs3 := fracSplit.2
  if intDs.isEmpty && fracDs.isEmpty then none
  else
    match parseExpPart cs3 with
    | none => none
    | some e => some (decSciRat neg (digitsToNat (intDs ++ fracDs)) (e - fracDs.length))

/-- One line of a `runtimes` file: strip it; an empty result is skipped, and a
non-empty result is parsed, with parse failures silently skipped
(`try: ... float(line) ... except ValueError: pass`). -/
def lineMeasurement (line : String) : Option ℚ :=
  let s := pyStrip line
  if s = "" then none else parseFloat s

/-- All measurements read from one `runtimes` file, in line order. -/
def fileMeasurements (lines : List String) : List ℚ :=
  lines.filterMap lineMeasurement

/-! ## `np.median` and the magnitude bucket -/

/-- `np.median`: sort, then the middle element (odd length) or the mean of
the two middle elements (even length).  The tool never calls it on an empty
list; the `0` default is unreachable on those paths. -/
def median (l : List ℚ) : ℚ :=
  let s := l.insertionSort (· ≤ ·)
  if l.length % 2 = 1 then s.getD (l.length / 2) 0
  else (s.getD (l.length / 2 - 1) 0 + s.getD (l.length / 2) 0) / 2

/-- Fuel-based `⌊log10⌋` on naturals (`natLog10Aux n n = Nat.log 10 n`,
proved below); structural so that the kernel can evaluate it. -/
def natLog10Aux : ℕ → ℕ → ℕ
  | 0, _ => 0
  | fuel + 1, n => if n < 10 then 0 else natLog10Aux fuel (n / 10) + 1

/-- `⌊log10 n⌋` (0 for `n = 0`). -/
def natLog10 (n : ℕ) : ℕ := natLog10Aux n n

theorem natLog10Aux_eq_log : ∀ fuel n, n ≤ fuel → natLog10Aux fuel n = Nat.log 10 n := by
  intro fuel
  induction fuel with
  | zero =>
    intro n hn
    interval_cases n
    simp [natLog10Aux, Nat.log]
  | succ fuel ih =>
    intro n hn
    by_cases h : n < 10
    · have : Nat.log 10 n = 0 := Nat.log_eq_zero_iff.mpr (Or.inl h)
      simp [natLog10Aux, h, this]
    · push_neg at h
      have hrec : Nat.log 10 n = Nat.log 10 (n / 10) + 1 :=
        Nat.log_of_one_lt_of_le (by omega) h
      have hdiv : n / 10 ≤ fuel := by
        have : n / 10 < n := Nat.div_lt_self (by omega) (by omega)
        omega
      simp only [natLog10Aux, if_neg (by omega : ¬ n < 10)]
      rw [ih (n / 10) hdiv, hrec]

theorem natLog10_eq_log (n : ℕ) : natLog10 n = Nat.log 10 n :=
  natLog10Aux_eq_log n n le_rfl

/-- `⌊q⌋` as a natural number, for the nonnegative rationals this tool
produces (kernel-computable, unlike `Int.floor` on `ℚ`). -/
def floorToNat (q : ℚ) : ℕ := q.num.toNat / q.den

theorem floorToNat_eq_floor (q : ℚ) (h : 0 ≤ q) : (floorToNat q : ℤ) = ⌊q⌋ := by
  rw [Rat.floor_def, floorToNat]
  have hnum : 0 ≤ q.num := Rat.num_nonneg.mpr h
  rw [Int.ofNat_ediv]
  congr 1
  exact Int.toNat_of_nonneg hnum

/-- `om = int(np.floor(np.log10(max(1.0, median_val))))`, in exact-real
semantics: for `x ≥ 1`, `⌊log10 x⌋ = ⌊log10 ⌊x⌋⌋` over the naturals.  The
result is always ≥ 0 because the argument is clamped to at least 1. -/
def omBucket (median_val : ℚ) : ℕ := natLog10 (floorToNat (max 1 median_val))

/-- Sanity check of the embedding: `omBucket` agrees with Mathlib's exact
`⌊log10⌋` for rationals. -/
theorem omBucket_eq_intLog (m : ℚ) : (omBucket m : ℤ) = Int.log 10 (max 1 m) := by
  have h1 : (1 : ℚ) ≤ max 1 m := le_max_left 1 m
  rw [Int.log_of_one_le_right _ h1, omBucket, natLog10_eq_log]
  congr 1
  have := floorToNat_eq_floor (max 1 m) (le_trans zero_le_one h1)
  have hfl : floorToNat (max 1 m) = (⌊max 1 m⌋).toNat := by omega
  rw [hfl, Int.floor_toNat]

/-! ## `discover_experiment_data` -/

/-- The names of immediate child directories whose name satisfies `p`
(`d.is_dir() and p(d.name)` over `iterdir()`). -/
def childDirNames (children : List FSEntry) (p : String → Bool) : List String :=
  children.filterMap (fun e =>
    match e with
    | .dir n _ => if p n then some n else none
    | .file _ _ => none)

/-- `run_dir / "runtimes"` read line by line, if it is a file; a missing or
non-file `runtimes` contributes nothing. -/
def runDirMeasurements : FSEntry → List ℚ
  | .dir _ c =>
    match lookup c "runtimes" with
    | some (.file _ lines) => fileMeasurements lines
    | _ => []
  | .file _ _ => []

/-- The inner collection loop over one run-type directory: its children in
sorted order, keeping directories matching `run\d+`, each contributing its
`runtimes` file's parsed lines. -/
def collectRuntimes : FSEntry → List ℚ
  | .dir _ rc =>
    ((rc.insertionSort entryLe).filter
      (fun e => e.isDirB && isRunName e.name)).flatMap runDirMeasurements
  | .file _ _ => []

/-- `tasks_folder / is_name / run_type` when it is a directory
(`run_type_path.is_dir()`); `none` means the pair is skipped (`continue`). -/
def pairDir (children : List FSEntry) (is_name run_type : String) : Option FSEntry :=
  match lookup children is_name with
  | some (.dir _ isChildren) =>
    match lookup isChildren run_type with
    | some (.dir m rtc) => some (.dir m rtc)
    | _ => none
  | _ => none

/-- All runtime values parseable under `tasks_folder/is_name/run_type`
(empty when the run-type directory is absent): the ground truth the
discovered mapping is compared against. -/
def collectPair (children : List FSEntry) (is_name run_type : String) : List ℚ :=
  match pairDir children is_name run_type with
  | some d => collectRuntimes d
  | none => []

/-- The `data` dictionary built by the double loop of
`discover_experiment_data`, as an insertion-ordered association list. -/
def dataList (children : List FSEntry) (input_sizes run_types : List String) :
    List ((String × String) × List ℚ) :=
  input_sizes.flatMap (fun is_name =>
    run_types.filterMap (fun run_type =>
      match pairDir children is_name run_type with
      | none => none
      | some rtDir =>
        if (collectRuntimes rtDir).isEmpty then none
        else some ((is_name, run_type), collectRuntimes rtDir)))

/-- The discovered input sizes: the sorted `IS\d+` child directories. -/
def inputSizesOf (children : List FSEntry) : List String :=
  (childDirNames children isISName).insertionSort strLe

/-- The discovered run types: the sorted children of the first input size,
minus hidden names and `data` (empty when there is no input size). -/
def runTypesOf (children : List FSEntry) : List String :=
  match inputSizesOf children with
  | [] => []
  | first :: _ =>
    match lookup children first with
    | some (.dir _ rtc) => (childDirNames rtc runTypeKeep).insertionSort strLe
    | _ => []

/-- The body of `discover_experiment_data` on a valid root directory. -/
def discoverResult (children : List FSEntry) :
    List String × List String × List ((String × String) × List ℚ) :=
  (inputSizesOf children, runTypesOf children,
    dataList children (inputSizesOf children) (runTypesOf children))

/-- `discover_experiment_data`: raises `ValueError` when the root does not
exist (`none`) or is not a directory (a `.file`); otherwise returns
`(input_sizes, run_types, data)`. -/
def discover_experiment_data (root : Option FSEntry) :
    Except String (List String × List String × List ((String × String) × List ℚ)) :=
  match root with
  | some (.dir _ c) => .ok (discoverResult c)
  | _ => .error "Tasks folder does not exist or is not a directory"

/-! ## `group_input_sizes_by_magnitude` -/

/-- `all_runtimes` for one input size: every value of a data entry whose key
has this input size as first component, in dictionary order. -/
def pooledRuntimes (data : List ((String × String) × List ℚ)) (is_name : String) : List ℚ :=
  data.flatMap (fun kv => if kv.1.1 = is_name then kv.2 else [])

/-- Whether an input size contributes at least one measurement. -/
def contributes (data : List ((String × String) × List ℚ)) (is_name : String) : Bool :=
  !(pooledRuntimes data is_name).isEmpty

/-- The magnitude bucket of one input size: `floor(log10(max(1, median)))`
of its pooled runtimes. -/
def sizeBucket (data : List ((String × String) × List ℚ)) (is_name : String) : ℕ :=
  omBucket (median (pooledRuntimes data is_name))

/-- One iteration of the grouping loop: skip input sizes with no runtimes,
otherwise append the size to its bucket's list (`om_to_sizes[om].append`),
creating the bucket at the end on first use (Python dicts preserve
insertion order). -/
def magStep (data : List ((String × String) × List ℚ))
    (acc : List (ℕ × List String)) (is_name : String) : List (ℕ × List String) :=
  if (pooledRuntimes data is_name).isEmpty then acc
  else
    let om := sizeBucket data is_name
    if acc.any (fun p => p.1 == om) then
      acc.map (fun p => if p.1 = om then (p.1, p.2 ++ [is_name]) else p)
    else acc ++ [(om, [is_name])]

/-- Ordering of input sizes by first position in the discovered list
(`key=lambda s: input_sizes.index(s)`). -/
def idxLe (input_sizes : List String) (a b : String) : Prop :=
  input_sizes.indexOf a ≤ input_sizes.indexOf b

instance (l : List String) : DecidableRel (idxLe l) := fun _ _ => Nat.decLe _ _

instance (l : List String) : IsTotal String (idxLe l) := ⟨fun _ _ => Nat.le_total _ _⟩

instance (l : List String) : IsTrans String (idxLe l) :=
  ⟨fun _ _ _ => Nat.le_trans⟩

/-- Ordering of bucket entries by bucket value (`sorted(om_to_sizes)`). -/
def keyLe (a b : ℕ × List String) : Prop := a.1 ≤ b.1

instance : DecidableRel keyLe := fun _ _ => Nat.decLe _ _

instance : IsTotal (ℕ × List String) keyLe := ⟨fun _ _ => Nat.le_total _ _⟩

instance : IsTrans (ℕ × List String) keyLe := ⟨fun _ _ _ => Nat.le_trans⟩

/-- `group_input_sizes_by_magnitude`: bucket the input sizes by
`floor(log10(median))` of pooled runtimes, sort each bucket's sizes by
discovery position, and return the buckets' lists ascending by bucket. -/
def group_input_sizes_by_magnitude (input_sizes : List String)
    (data : List ((String × String) × List ℚ)) : List (List String) :=
  let om_to_sizes := input_sizes.foldl (magStep data) []
  let sortedVals := om_to_sizes.map (fun p =>
    (p.1, p.2.insertionSort (idxLe input_sizes)))
  (sortedVals.insertionSort keyLe).map (fun p => p.2)

/-! ## `plot_grouped_boxplots` (data side) and `main` -/

/-- Units for runtime display: (scale factor from ns, label), descending. -/
def RUNTIME_UNITS : List (ℚ × String) :=
  [(1000000000, "s"), (1000000, "ms"), (1000, "us"), (1, "ns")]

/-- Whether the root path exists and is a directory. -/
def rootIsDir : Option FSEntry → Bool
  | some (.dir _ _) => true
  | _ => false

/-- The children of `tasks_folder/is_name/run_type` when that path is a
directory, else `[]`. -/
def pairChildren (children : List FSEntry) (is_name run_type : String) : List FSEntry :=
  match pairDir children is_name run_type with
  | some (.dir _ rc) => rc
  | _ => []

/-- The data `plot_grouped_boxplots` hands to the renderer: the scaled box
samples, the per-box run-type labels, and the chosen scale and unit.
Rendering proper (matplotlib) is an external collaborator and not modelled;
the two `ValueError` raises are. -/
def plot_grouped_boxplots (input_sizes run_types : List String)
    (data : List ((String × String) × List ℚ)) :
    Except String (List (List ℚ) × List String × ℚ × String) :=
  if input_sizes.length = 0 ∨ run_types.length = 0 then
    .error "No input sizes or run types found"
  else
    let boxes := input_sizes.flatMap (fun is_name =>
      run_types.filterMap (fun run_type =>
        match (data.find? (fun kv => kv.1 == (is_name, run_type))).map (fun kv => kv.2) with
        | some vals => if vals.isEmpty then none else some (vals, run_type)
        | none => none))
    let box_data := boxes.map (fun b => b.1)
    let labels := boxes.map (fun b => b.2)
    if box_data.isEmpty then .error "No runtime data found"
    else
      let median_ns := median box_data.flatten
      let su := (RUNTIME_UNITS.find? (fun su => decide (su.1 ≤ median_ns))).getD (1, "ns")
      .ok (box_data.map (fun vals => vals.map (fun v => v / su.1)), labels, su.1, su.2)

/-- `main`: discover, group, and plot one figure per magnitude group, with
the data restricted to the group's input sizes.  The result collects each
figure's plot data; an exception anywhere aborts the run. -/
def main (root : Option FSEntry) :
    Except String (List (List (List ℚ) × List String × ℚ × String)) :=
  match discover_experiment_data root with
  | .error e => .error e
  | .ok (input_sizes, run_types, data) =>
    let groups := group_input_sizes_by_magnitude input_sizes data
    groups.mapM (fun group =>
      plot_grouped_boxplots group run_types
        (data.filter (fun kv => group.contains kv.1.1)))

/-! ## Pipeline 2 speedup calculator (not in `src/`) -/

/-- Modelled from the spec: the Pipeline 2 speedup calculator (spec §4.4) is
not part of `src/` (only Pipeline 1, `runtimes.py`, is).  For a fixed
(routine, input_size, device): look up the baseline competitor's measurement
list (`none` models an absent key); if absent or empty, produce no speedups
for the combination; otherwise produce one speedup per raw competitor
measurement, `baseline_median / measurement`. -/
def speedup_samples (baseline : Option (List ℚ)) (competitor : List ℚ) : List ℚ :=
  match baseline with
  | none => []
  | some b => if b.isEmpty then [] else competitor.map (fun s => median b / s)

/-! ## Sample trees used by concrete scenarios -/

/-- Spec Scenario A: `IS1/baseline/run1/runtimes` = 100,200,300 and
`IS1/opt/run1/runtimes` = 50,60. -/
def treeScenarioA : List FSEntry :=
  [.dir "IS1" [.dir "baseline" [.dir "run1" [.file "runtimes" ["100", "200", "300"]]],
               .dir "opt" [.dir "run1" [.file "runtimes" ["50", "60"]]]]]

/-- A root where a run type (`opt`) exists only under the second input size:
run types are derived from the first input size only, so its data is never
collected. -/
def treeUnseenRunType : List FSEntry :=
  [.dir "IS1" [], .dir "IS2" [.dir "opt" [.dir "run1" [.file "runtimes" ["5"]]]]]

/-- A root where `IS2` is discovered but yields zero measurements
(`IS2/a` exists but holds no run directory). -/
def treeSizeWithoutData : List FSEntry :=
  [.dir "IS1" [.dir "a" [.dir "run1" [.file "runtimes" ["5"]]]],
   .dir "IS2" [.dir "a" []]]

/-- A root whose single runtimes file holds the line `-5`: `float("-5")`
parses, so the negative value is stored. -/
def treeNegativeLine : List FSEntry :=
  [.dir "IS1" [.dir "a" [.dir "run1" [.file "runtimes" ["-5"]]]]]

/-- A root with run directories `run2` and `run10` (listed in that order):
sorting is lexicographic, so `run10` contributes before `run2`. -/
def treeRunOrder : List FSEntry :=
  [.dir "IS1" [.dir "a" [.dir "run2" [.file "runtimes" ["2"]],
                         .dir "run10" [.file "runtimes" ["1"]]]]]

/-- Spec Scenario B: input-size directories `IS2`, `IS10`, `IS1`. -/
def treeThreeSizes : List FSEntry :=
  [.dir "IS2" [], .dir "IS10" [], .dir "IS1" []]

/-! ## Structure of the discovered data -/

theorem mem_dataList_iff {c : List FSEntry} {iss rts : List String}
    {kv : (String × String) × List ℚ} :
    kv ∈ dataList c iss rts ↔
      kv.1.1 ∈ iss ∧ kv.1.2 ∈ rts ∧ collectPair c kv.1.1 kv.1.2 = kv.2 ∧ kv.2 ≠ [] := by
  unfold dataList
  rw [List.mem_flatMap]
  constructor
  · rintro ⟨is_name, his, hmem⟩
    rw [List.mem_filterMap] at hmem
    obtain ⟨run_type, hrt, heq⟩ := hmem
    cases hpd : pairDir c is_name run_type with
    | none => rw [hpd] at heq; cases heq
    | some rtDir =>
      simp only [hpd] at heq
      by_cases hem : (collectRuntimes rtDir).isEmpty = true
      · rw [if_pos hem] at heq; cases heq
      · rw [if_neg hem] at heq
        cases heq
        refine ⟨his, hrt, ?_, ?_⟩
        · show collectPair c is_name run_type = _
          rw [collectPair, hpd]
        · intro hnil
          have hnil' : collectRuntimes rtDir = [] := hnil
          rw [hnil'] at hem
          exact hem rfl
  · rintro ⟨h1, h2, h3, h4⟩
    refine ⟨kv.1.1, h1, ?_⟩
    rw [List.mem_filterMap]
    refine ⟨kv.1.2, h2, ?_⟩
    rw [collectPair] at h3
    cases hpd : pairDir c kv.1.1 kv.1.2 with
    | none =>
      rw [hpd] at h3
      exact absurd h3.symm h4
    | some rtDir =>
      simp only [hpd] at h3
      have hem : ¬ ((collectRuntimes rtDir).isEmpty = true) := by
        rw [h3]
        cases hkv : kv.2 with
        | nil => exact absurd hkv h4
        | cons a l => intro hh; cases hh
      simp only [hpd, if_neg hem]
      rw [h3]

theorem mem_dataKeys_iff {c : List FSEntry} {iss rts : List String}
    {is_name run_type : String} :
    (is_name, run_type) ∈ (dataList c iss rts).map (fun kv => kv.1) ↔
      is_name ∈ iss ∧ run_type ∈ rts ∧ collectPair c is_name run_type ≠ [] := by
  rw [List.mem_map]
  constructor
  · rintro ⟨kv, hkv, hfst⟩
    obtain ⟨h1, h2, h3, h4⟩ := mem_dataList_iff.mp hkv
    have e1 : kv.1.1 = is_name := by rw [hfst]
    have e2 : kv.1.2 = run_type := by rw [hfst]
    rw [e1] at h1
    rw [e2] at h2
    rw [e1, e2] at h3
    exact ⟨h1, h2, fun hnil => h4 (h3.symm.trans hnil)⟩
  · rintro ⟨h1, h2, h3⟩
    refine ⟨((is_name, run_type), collectPair c is_name run_type),
      mem_dataList_iff.mpr ⟨h1, h2, rfl, h3⟩, rfl⟩

/-! ## Claim C1 -/

/-- Counterexample to claim C1 as stated: at `treeUnseenRunType` the pair
(`IS2`, `opt`) has a parseable line under `IS2/opt/run1/runtimes`, but the
discovered mapping (which is empty: run types come from the first input size
only) has no such key. -/
theorem C1_counterexample :
    collectPair treeUnseenRunType "IS2" "opt" ≠ [] ∧
    ("IS2", "opt") ∉ (discoverResult treeUnseenRunType).2.2.map (fun kv => kv.1) := by
  decide

/-- Claim C1, amended: a key `(is_name, run_type)` is in the discovered
mapping iff `is_name` is a discovered input size, `run_type` is a discovered
run type (taken from the first input size), and at least one line of some
`run<digits>/runtimes` file under that pair parses as a float; and no key is
mapped to an empty list. -/
theorem C1_key_presence (c : List FSEntry) (is_name run_type : String) :
    ((is_name, run_type) ∈ (discoverResult c).2.2.map (fun kv => kv.1) ↔
      is_name ∈ (discoverResult c).1 ∧ run_type ∈ (discoverResult c).2.1 ∧
        collectPair c is_name run_type ≠ []) ∧
    (∀ kv ∈ (discoverResult c).2.2, kv.2 ≠ []) := by
  constructor
  · exact mem_dataKeys_iff
  · intro kv hkv
    exact (mem_dataList_iff.mp hkv).2.2.2

/-- Witness for `C1_key_presence` at Scenario A. -/
theorem C1_key_presence_witness :
    ("IS1", "opt") ∈ (discoverResult treeScenarioA).2.2.map (fun kv => kv.1) :=
  (C1_key_presence treeScenarioA "IS1" "opt").1.mpr ⟨by decide, by decide, by decide⟩

/-! ## Claim C3 -/

/-- Claim C3: with a non-empty baseline list, the speedup list has exactly
`len(competitor_samples)` entries, the `i`-th being
`baseline_median / competitor_samples[i]`; with an absent or empty baseline
the combination is omitted entirely. -/
theorem C3_speedup_shape (b cs : List ℚ) (hb : b ≠ []) :
    (speedup_samples (some b) cs).length = cs.length ∧
    (∀ i, i < cs.length →
      (speedup_samples (some b) cs).getD i 0 = median b / cs.getD i 0) ∧
    speedup_samples none cs = [] ∧
    speedup_samples (some []) cs = [] := by
  have hbe : ¬ (b.isEmpty = true) := by
    cases hb' : b with
    | nil => exact absurd hb' hb
    | cons a l => intro hh; cases hh
  refine ⟨?_, ?_, rfl, rfl⟩
  · simp only [speedup_samples, if_neg hbe, List.length_map]
  · intro i hi
    simp only [speedup_samples, if_neg hbe]
    rw [List.getD_eq_getElem?_getD, List.getD_eq_getElem?_getD, List.getElem?_map,
      List.getElem?_eq_getElem hi]
    rfl

/-- Witness for `C3_speedup_shape`: spec Scenario C,
baseline `[100]`, competitor `[50]`, speedup `100 / 50`. -/
theorem C3_speedup_shape_witness :
    (speedup_samples (some [100]) [50]).length = 1 ∧
    (speedup_samples (some [(100 : ℚ)]) [50]).getD 0 0 = median [100] / 50 :=
  ⟨(C3_speedup_shape [100] [50] (by decide)).1,
   (C3_speedup_shape [100] [50] (by decide)).2.1 0 (by decide)⟩

/-! ## Claim C4 -/

/-- Claim C4 fails on the code: with a valid root but no input sizes, no run
types, or zero measurements, `main` does not raise — discovery returns empty
data, the magnitude grouping returns zero groups, the plotting loop runs
zero times, and the process terminates normally having produced no plot.
The `ValueError` branches of `plot_grouped_boxplots` are unreachable from
`main`. -/
theorem C4_normal_exit_on_empty :
    RuntimesPlot.main (some (.dir "tasks" [])) = .ok [] ∧
    RuntimesPlot.main (some (.dir "tasks" [.dir "IS1" []])) = .ok [] ∧
    RuntimesPlot.main (some (.dir "tasks" [.dir "IS1" [.dir "opt" []]])) = .ok [] :=
  ⟨by decide, by decide, by decide⟩

/-! ## Claim C5 -/

/-- Claim C5: the number of measurements collected from one `runtimes` file
equals the number of its lines that are non-empty after stripping and parse
as a float; blank and unparsable lines are skipped (the embedding is total —
no error is possible) and never change the count. -/
theorem C5_measurement_count (lines : List String) :
    (fileMeasurements lines).length =
      (lines.filter (fun l => !(pyStrip l == "") && (parseFloat (pyStrip l)).isSome)).length := by
  induction lines with
  | nil => rfl
  | cons l ls ih =>
    rw [fileMeasurements, List.filterMap_cons, List.filter_cons]
    by_cases h : pyStrip l = ""
    · have h1 : lineMeasurement l = none := by
        simp [lineMeasurement, h]
      have h2 : (!(pyStrip l == "") && (parseFloat (pyStrip l)).isSome) = false := by
        simp [h]
      rw [h1, h2]
      simpa [fileMeasurements] using ih
    · have h1 : lineMeasurement l = parseFloat (pyStrip l) := by
        simp [lineMeasurement, h]
      have h2 : (!(pyStrip l == "") && (parseFloat (pyStrip l)).isSome) =
          (parseFloat (pyStrip l)).isSome := by
        simp [h]
      rw [h1, h2]
      cases hp : parseFloat (pyStrip l) with
      | none =>
        simp only [Option.isSome_none, if_false, Bool.false_eq_true]
        simpa [fileMeasurements] using ih
      | some v =>
        simp only [Option.isSome_some, if_true, List.length_cons]
        simp only [fileMeasurements] at ih
        omega

/-! ## Claim C6 -/

/-- Claim C6: `discover_experiment_data` raises its descriptive error iff the
root does not exist or is not a directory; and an absent run-type folder,
`run<digits>` directory or `runtimes` file (i.e. zero parseable values under
a pair) never raises — the pair merely contributes no key. -/
theorem C6_error_iff_bad_root :
    (∀ root : Option FSEntry,
      (∃ msg, discover_experiment_data root = .error msg) ↔ rootIsDir root = false) ∧
    (∀ (c : List FSEntry) (is_name run_type : String),
      collectPair c is_name run_type = [] →
      (is_name, run_type) ∉ (discoverResult c).2.2.map (fun kv => kv.1)) := by
  constructor
  · intro root
    cases root with
    | none => exact ⟨fun _ => rfl, fun _ => ⟨_, rfl⟩⟩
    | some e =>
      cases e with
      | dir n c =>
        constructor
        · rintro ⟨msg, hmsg⟩; cases hmsg
        · intro h; cases h
      | file n ls => exact ⟨fun _ => rfl, fun _ => ⟨_, rfl⟩⟩
  · intro c is_name run_type hempty hmem
    exact (mem_dataKeys_iff.mp hmem).2.2 hempty

/-- Witness for `C6_error_iff_bad_root`: a missing root raises, and the pair
(`IS1`, `a`) with no run-type directory contributes no key. -/
theorem C6_error_iff_bad_root_witness :
    (∃ msg, discover_experiment_data none = .error msg) ∧
    ("IS1", "a") ∉ (discoverResult [FSEntry.dir "IS1" []]).2.2.map (fun kv => kv.1) :=
  ⟨C6_error_iff_bad_root.1 none |>.mpr rfl,
   C6_error_iff_bad_root.2 [FSEntry.dir "IS1" []] "IS1" "a" (by decide)⟩

/-! ## Claim C7 -/

/-- Counterexample to claim C7 as stated: the line `-5` parses as the float
`-5.0` and is stored, so a discovered list can contain a negative value. -/
theorem C7_counterexample :
    (discoverResult treeNegativeLine).2.2 = [(("IS1", "a"), [-5])] ∧ ((-5 : ℚ) < 0) := by
  decide

/-- Claim C7, amended: every stored list is exactly the list of values parsed
under its key (the code does not filter by sign), so it is non-negative
whenever every parsed value under that key is non-negative. -/
theorem C7_values_from_parsing (c : List FSEntry) (kv : (String × String) × List ℚ)
    (hkv : kv ∈ (discoverResult c).2.2) :
    kv.2 = collectPair c kv.1.1 kv.1.2 ∧
    ((∀ v ∈ collectPair c kv.1.1 kv.1.2, 0 ≤ v) → ∀ v ∈ kv.2, 0 ≤ v) := by
  obtain ⟨-, -, h3, -⟩ := mem_dataList_iff.mp hkv
  exact ⟨h3.symm, fun hpos v hv => hpos v (h3 ▸ hv)⟩

/-- Witness for `C7_values_from_parsing` at Scenario A. -/
theorem C7_values_from_parsing_witness :
    ([(100 : ℚ), 200, 300] = collectPair treeScenarioA "IS1" "baseline") ∧
    ((∀ v ∈ collectPair treeScenarioA "IS1" "baseline", 0 ≤ v) →
      ∀ v ∈ [(100 : ℚ), 200, 300], 0 ≤ v) :=
  C7_values_from_parsing treeScenarioA (("IS1", "baseline"), [100, 200, 300]) (by decide)

/-! ## Claim C9 -/

/-- Claim C9 (spec Scenario A): discovery yields exactly the two keys with
the literal parsed values, and the unit chosen from the pooled values is
`ns` with scale 1 (the pooled median, 100, is below the 1000 `us` cutoff). -/
theorem C9_scenarioA :
    (discoverResult treeScenarioA).1 = ["IS1"] ∧
    (discoverResult treeScenarioA).2.1 = ["baseline", "opt"] ∧
    (discoverResult treeScenarioA).2.2 =
      [(("IS1", "baseline"), [100, 200, 300]), (("IS1", "opt"), [50, 60])] ∧
    (plot_grouped_boxplots (discoverResult treeScenarioA).1 (discoverResult treeScenarioA).2.1
        (discoverResult treeScenarioA).2.2).map (fun r => r.2.2.2) = .ok "ns" ∧
    (plot_grouped_boxplots (discoverResult treeScenarioA).1 (discoverResult treeScenarioA).2.1
        (discoverResult treeScenarioA).2.2).map (fun r => r.2.2.1) = .ok 1 :=
  ⟨by decide, by decide, by decide, by decide, by decide⟩

/-! ## Claim C10 -/

/-- Claim C10: the stored list of every key is the concatenation of the
matching `run<digits>` directories' parsed `runtimes` contents, the
directories taken in (code-point lexicographic) sorted name order — so
`run10` contributes before `run2` — with line order preserved inside each
directory's contribution. -/
theorem C10_run_dir_order (c : List FSEntry) (kv : (String × String) × List ℚ)
    (hkv : kv ∈ (discoverResult c).2.2) :
    ∃ runDirs : List FSEntry,
      List.Perm runDirs ((pairChildren c kv.1.1 kv.1.2).filter (fun e => e.isDirB && isRunName e.name)) ∧
      runDirs.Pairwise entryLe ∧
      kv.2 = runDirs.flatMap runDirMeasurements := by
  obtain ⟨-, -, h3, h4⟩ := mem_dataList_iff.mp hkv
  rw [collectPair] at h3
  cases hpd : pairDir c kv.1.1 kv.1.2 with
  | none =>
    rw [hpd] at h3
    exact absurd h3.symm h4
  | some rtDir =>
    rw [hpd] at h3
    cases rtDir with
    | file n ls =>
      exact absurd (h3.symm) h4
    | dir n rc =>
      refine ⟨(rc.insertionSort entryLe).filter (fun e => e.isDirB && isRunName e.name),
        ?_, ?_, ?_⟩
      · have : pairChildren c kv.1.1 kv.1.2 = rc := by
          rw [pairChildren, hpd]
        rw [this]
        exact (List.perm_insertionSort entryLe rc).filter _
      · exact (List.sorted_insertionSort entryLe rc).sublist (List.filter_sublist _)
      · rw [← h3]
        exact rfl

/-- Witness for `C10_run_dir_order` at `treeRunOrder` (`run10` sorts before
`run2`, so the stored list is `[1, 2]`). -/
theorem C10_run_dir_order_witness :
    ∃ runDirs : List FSEntry,
      List.Perm runDirs ((pairChildren treeRunOrder "IS1" "a").filter
          (fun e => e.isDirB && isRunName e.name)) ∧
      runDirs.Pairwise entryLe ∧
      ([(1 : ℚ), 2] : List ℚ) = runDirs.flatMap runDirMeasurements :=
  C10_run_dir_order treeRunOrder (("IS1", "a"), [1, 2]) (by decide)

/-! ## Claim C8 -/

/-- Claim C8 (spec Scenario B): when the `IS\d+`-matching subdirectories are
exactly `IS1`, `IS2`, `IS10` (in any listing order), the discovered
input-size list is the lexicographic order `IS1, IS10, IS2`, not numeric
order. -/
theorem C8_lexicographic_sort (c : List FSEntry)
    (h : List.Perm (childDirNames c isISName) ["IS1", "IS2", "IS10"]) :
    (discoverResult c).1 = ["IS1", "IS10", "IS2"] := by
  have hs : List.Sorted strLe ((childDirNames c isISName).insertionSort strLe) :=
    List.sorted_insertionSort strLe _
  have hp : List.Perm ((childDirNames c isISName).insertionSort strLe) ["IS1", "IS10", "IS2"] :=
    (List.perm_insertionSort strLe _).trans (h.trans (by decide))
  have ht : List.Sorted strLe ["IS1", "IS10", "IS2"] := by decide
  exact List.eq_of_perm_of_sorted hp hs ht

/-- Witness for `C8_lexicographic_sort` at `treeThreeSizes`. -/
theorem C8_lexicographic_sort_witness :
    (discoverResult treeThreeSizes).1 = ["IS1", "IS10", "IS2"] :=
  C8_lexicographic_sort treeThreeSizes (by decide)

/-! ## Claim C2 -/

/-- Counterexample to claim C2 as stated: at `treeSizeWithoutData`, `IS2` is
a discovered input size but has zero measurements, so the grouping drops it —
the groups are not a partition of all discovered input sizes. -/
theorem C2_counterexample :
    "IS2" ∈ (discoverResult treeSizeWithoutData).1 ∧
    group_input_sizes_by_magnitude (discoverResult treeSizeWithoutData).1
        (discoverResult treeSizeWithoutData).2.2 = [["IS1"]] ∧
    "IS2" ∉ [["IS1"]].flatten :=
  ⟨by decide, by decide, by decide⟩

/-- The keys of the `om_to_sizes` association list. -/
def accKeys (acc : List (ℕ × List String)) : List ℕ := acc.map (fun p => p.1)

/-- The value stored under bucket `om` (`[]` when the bucket is absent). -/
def omVal (acc : List (ℕ × List String)) (om : ℕ) : List String :=
  ((acc.find? (fun p => p.1 == om)).map (fun p => p.2)).getD []

/-- The input sizes that contribute measurements and fall in bucket `om`,
in discovery order. -/
def goodFilter (data : List ((String × String) × List ℚ)) (l : List String) (om : ℕ) :
    List String :=
  l.filter (fun s => contributes data s && (sizeBucket data s == om))

theorem contributes_true_of_not_isEmpty {data : List ((String × String) × List ℚ)}
    {s : String} (hc : ¬ ((pooledRuntimes data s).isEmpty = true)) :
    contributes data s = true := by
  unfold contributes
  revert hc
  cases (pooledRuntimes data s).isEmpty <;> simp

theorem contributes_false_of_isEmpty {data : List ((String × String) × List ℚ)}
    {s : String} (hc : (pooledRuntimes data s).isEmpty = true) :
    contributes data s = false := by
  unfold contributes
  rw [hc]
  rfl

theorem updFst (om₀ : ℕ) (s : String) (p : ℕ × List String) :
    (if p.1 = om₀ then (p.1, p.2 ++ [s]) else p).1 = p.1 := by
  by_cases h : p.1 = om₀ <;> simp [h]

theorem accKeys_magStep_mem (data : List ((String × String) × List ℚ))
    (acc : List (ℕ × List String)) (s : String) (om : ℕ) :
    om ∈ accKeys (magStep data acc s) ↔
      om ∈ accKeys acc ∨ (contributes data s && (sizeBucket data s == om)) = true := by
  by_cases hc : (pooledRuntimes data s).isEmpty = true
  · rw [magStep, if_pos hc, contributes_false_of_isEmpty hc]
    simp
  · rw [magStep, if_neg hc, contributes_true_of_not_isEmpty hc]
    by_cases ha : (acc.any (fun p => p.1 == sizeBucket data s)) = true
    · rw [if_pos ha]
      have hkeys : accKeys (acc.map
          (fun p => if p.1 = sizeBucket data s then (p.1, p.2 ++ [s]) else p)) = accKeys acc := by
        unfold accKeys
        rw [List.map_map]
        exact List.map_congr_left (fun p _ => updFst _ s p)
      rw [hkeys]
      have hin : sizeBucket data s ∈ accKeys acc := by
        obtain ⟨p, hp, hpeq⟩ := List.any_eq_true.mp ha
        exact List.mem_map.mpr ⟨p, hp, beq_iff_eq.mp hpeq⟩
      constructor
      · exact Or.inl
      · rintro (h | h)
        · exact h
        · rw [Bool.true_and] at h
          rw [← beq_iff_eq.mp h]
          exact hin
    · rw [if_neg ha]
      unfold accKeys
      rw [List.map_append, List.mem_append]
      simp only [List.map_cons, List.map_nil, List.mem_singleton, Bool.true_and]
      constructor
      · rintro (h | h)
        · exact Or.inl h
        · exact Or.inr (by rw [h]; exact beq_self_eq_true _)
      · rintro (h | h)
        · exact Or.inl h
        · exact Or.inr (beq_iff_eq.mp h).symm

theorem omVal_magStep (data : List ((String × String) × List ℚ))
    (acc : List (ℕ × List String)) (s : String) (om : ℕ) :
    omVal (magStep data acc s) om =
      omVal acc om ++
        (if (contributes data s && (sizeBucket data s == om)) = true then [s] else []) := by
  by_cases hc : (pooledRuntimes data s).isEmpty = true
  · rw [magStep, if_pos hc, contributes_false_of_isEmpty hc]
    simp
  · rw [magStep, if_neg hc, contributes_true_of_not_isEmpty hc, Bool.true_and]
    by_cases ha : (acc.any (fun p => p.1 == sizeBucket data s)) = true
    · rw [if_pos ha]
      unfold omVal
      have hcomp : ((fun p : ℕ × List String => p.1 == om) ∘
          (fun p : ℕ × List String => if p.1 = sizeBucket data s then (p.1, p.2 ++ [s]) else p)) =
          (fun p : ℕ × List String => p.1 == om) := by
        funext q
        simp only [Function.comp]
        rw [updFst]
      rw [List.find?_map, hcomp]
      cases hfind : acc.find? (fun p => p.1 == om) with
      | none =>
        have hne : ¬ ((sizeBucket data s == om) = true) := by
          intro hbeq
          obtain ⟨q, hq, hqeq⟩ := List.any_eq_true.mp ha
          have h1 : q.1 = sizeBucket data s := beq_iff_eq.mp hqeq
          have h2 := List.find?_eq_none.mp hfind q hq
          rw [h1, hbeq] at h2
          exact h2 rfl
        rw [if_neg hne]
        simp
      | some p₀ =>
        have hpred := List.find?_some hfind
        have hp₀ : p₀.1 = om := beq_iff_eq.mp hpred
        simp only [Option.map_map, Option.map_some', Option.getD_some, Function.comp]
        by_cases hbeq : (sizeBucket data s == om) = true
        · rw [if_pos hbeq]
          have : p₀.1 = sizeBucket data s := by
            rw [hp₀, beq_iff_eq.mp hbeq]
          rw [if_pos this]
        · rw [if_neg hbeq]
          have : ¬ (p₀.1 = sizeBucket data s) := by
            intro h
            rw [hp₀] at h
            rw [← h] at hbeq
            exact hbeq (beq_self_eq_true _)
          rw [if_neg this, List.append_nil]
    · rw [if_neg ha]
      unfold omVal
      rw [List.find?_append]
      cases hfind : acc.find? (fun p => p.1 == om) with
      | some p₀ =>
        have hpred := List.find?_some hfind
        have hp₀ : p₀.1 = om := beq_iff_eq.mp hpred
        have hne : ¬ ((sizeBucket data s == om) = true) := by
          intro hbeq
          have : acc.any (fun p => p.1 == sizeBucket data s) = true :=
            List.any_eq_true.mpr ⟨p₀, List.mem_of_find?_eq_some hfind,
              by rw [hp₀, beq_iff_eq.mp hbeq]; exact beq_self_eq_true _⟩
          exact ha this
        rw [if_neg hne]
        simp
      | none =>
        simp only [Option.or_none, Option.none_or, List.find?]
        by_cases hbeq : (sizeBucket data s == om) = true
        · rw [if_pos hbeq, hbeq]
          rfl
        · rw [if_neg hbeq]
          rw [Bool.of_not_eq_true hbeq]
          rfl

theorem accKeys_magStep_nodup (data : List ((String × String) × List ℚ))
    (acc : List (ℕ × List String)) (s : String) (h : (accKeys acc).Nodup) :
    (accKeys (magStep data acc s)).Nodup := by
  by_cases hc : (pooledRuntimes data s).isEmpty = true
  · rw [magStep, if_pos hc]; exact h
  · rw [magStep, if_neg hc]
    by_cases ha : (acc.any (fun p => p.1 == sizeBucket data s)) = true
    · rw [if_pos ha]
      have hkeys : accKeys (acc.map
          (fun p => if p.1 = sizeBucket data s then (p.1, p.2 ++ [s]) else p)) = accKeys acc := by
        unfold accKeys
        rw [List.map_map]
        exact List.map_congr_left (fun p _ => updFst _ s p)
      rw [hkeys]; exact h
    · rw [if_neg ha]
      unfold accKeys
      rw [List.map_append]
      simp only [List.map_cons, List.map_nil]
      rw [List.nodup_append]
      refine ⟨h, List.nodup_singleton _, ?_⟩
      intro om hom hom'
      rw [List.mem_singleton] at hom'
      apply ha
      obtain ⟨p, hp, hpeq⟩ := List.mem_map.mp hom
      exact List.any_eq_true.mpr ⟨p, hp, by rw [hpeq, hom']; exact beq_self_eq_true _⟩

theorem vals_magStep_ne_nil (data : List ((String × String) × List ℚ))
    (acc : List (ℕ × List String)) (s : String) (h : ∀ p ∈ acc, p.2 ≠ []) :
    ∀ p ∈ magStep data acc s, p.2 ≠ [] := by
  intro p hp
  by_cases hc : (pooledRuntimes data s).isEmpty = true
  · rw [magStep, if_pos hc] at hp; exact h p hp
  · rw [magStep, if_neg hc] at hp
    by_cases ha : (acc.any (fun q => q.1 == sizeBucket data s)) = true
    · rw [if_pos ha] at hp
      obtain ⟨q, hq, hqeq⟩ := List.mem_map.mp hp
      by_cases hq1 : q.1 = sizeBucket data s
      · rw [if_pos hq1] at hqeq
        rw [← hqeq]
        simp
      · rw [if_neg hq1] at hqeq
        rw [← hqeq]
        exact h q hq
    · rw [if_neg ha] at hp
      rw [List.mem_append] at hp
      rcases hp with hp | hp
      · exact h p hp
      · rw [List.mem_singleton] at hp
        rw [hp]
        simp

theorem magFold_omVal (data : List ((String × String) × List ℚ)) :
    ∀ (l : List String) (acc : List (ℕ × List String)) (om : ℕ),
      omVal (l.foldl (magStep data) acc) om = omVal acc om ++ goodFilter data l om := by
  intro l
  induction l with
  | nil =>
    intro acc om
    simp [goodFilter]
  | cons s l ih =>
    intro acc om
    rw [List.foldl_cons, ih (magStep data acc s) om, omVal_magStep]
    simp only [goodFilter, List.filter_cons]
    rw [List.append_assoc]
    congr 1
    by_cases hcond : (contributes data s && (sizeBucket data s == om)) = true
    · rw [if_pos hcond, if_pos hcond]
      rfl
    · rw [if_neg hcond, if_neg hcond]
      rfl

theorem magFold_keys_mem (data : List ((String × String) × List ℚ)) :
    ∀ (l : List String) (acc : List (ℕ × List String)) (om : ℕ),
      om ∈ accKeys (l.foldl (magStep data) acc) ↔
        om ∈ accKeys acc ∨
          ∃ s ∈ l, (contributes data s && (sizeBucket data s == om)) = true := by
  intro l
  induction l with
  | nil =>
    intro acc om
    simp
  | cons s l ih =>
    intro acc om
    rw [List.foldl_cons, ih (magStep data acc s) om, accKeys_magStep_mem]
    simp only [List.mem_cons]
    constructor
    · rintro ((h | h) | ⟨t, ht, hcond⟩)
      · exact Or.inl h
      · exact Or.inr ⟨s, Or.inl rfl, h⟩
      · exact Or.inr ⟨t, Or.inr ht, hcond⟩
    · rintro (h | ⟨t, (rfl | ht), hcond⟩)
      · exact Or.inl (Or.inl h)
      · exact Or.inl (Or.inr hcond)
      · exact Or.inr ⟨t, ht, hcond⟩

theorem magFold_keys_nodup (data : List ((String × String) × List ℚ)) :
    ∀ (l : List String) (acc : List (ℕ × List String)),
      (accKeys acc).Nodup → (accKeys (l.foldl (magStep data) acc)).Nodup := by
  intro l
  induction l with
  | nil => intro acc h; exact h
  | cons s l ih =>
    intro acc h
    rw [List.foldl_cons]
    exact ih (magStep data acc s) (accKeys_magStep_nodup data acc s h)

theorem magFold_vals_ne_nil (data : List ((String × String) × List ℚ)) :
    ∀ (l : List String) (acc : List (ℕ × List String)),
      (∀ p ∈ acc, p.2 ≠ []) → ∀ p ∈ l.foldl (magStep data) acc, p.2 ≠ [] := by
  intro l
  induction l with
  | nil => intro acc h; exact h
  | cons s l ih =>
    intro acc h
    rw [List.foldl_cons]
    exact ih (magStep data acc s) (vals_magStep_ne_nil data acc s h)

theorem omVal_of_mem {acc : List (ℕ × List String)} (hnd : (accKeys acc).Nodup)
    {p : ℕ × List String} (hp : p ∈ acc) : omVal acc p.1 = p.2 := by
  induction acc with
  | nil => cases hp
  | cons q acc ih =>
    unfold accKeys at hnd
    rw [List.map_cons, List.nodup_cons] at hnd
    rcases List.mem_cons.mp hp with rfl | hp'
    · simp [omVal, List.find?_cons]
    · have hq2 : (q.1 == p.1) = false := by
        rw [beq_eq_false_iff_ne]
        intro hbeq
        exact hnd.1 (hbeq ▸ List.mem_map.mpr ⟨p, hp', rfl⟩)
      unfold omVal
      rw [List.find?_cons]
      simp only [hq2]
      exact ih hnd.2 hp'

theorem pairwise_idx_lt (l : List String) (h : l.Nodup) :
    l.Pairwise (fun a b => l.indexOf a < l.indexOf b) := by
  induction l with
  | nil => exact List.Pairwise.nil
  | cons a t ih =>
    rw [List.nodup_cons] at h
    constructor
    · intro b hb
      have hba : b ≠ a := fun hba => h.1 (hba ▸ hb)
      rw [List.indexOf_cons_self, List.indexOf_cons_ne t (Ne.symm hba)]
      exact Nat.succ_pos _
    · refine (ih h.2).imp_of_mem ?_
      intro x y hx hy hxy
      have hxa : x ≠ a := fun e => h.1 (e ▸ hx)
      have hya : y ≠ a := fun e => h.1 (e ▸ hy)
      rw [List.indexOf_cons_ne t (Ne.symm hxa), List.indexOf_cons_ne t (Ne.symm hya)]
      exact Nat.succ_lt_succ hxy

theorem sorted_goodFilter (data : List ((String × String) × List ℚ))
    (input_sizes : List String) (h : input_sizes.Nodup) (om : ℕ) :
    List.Sorted (idxLe input_sizes) (goodFilter data input_sizes om) := by
  have h1 : (goodFilter data input_sizes om).Pairwise
      (fun a b => input_sizes.indexOf a < input_sizes.indexOf b) :=
    List.Pairwise.sublist (List.filter_sublist _) (pairwise_idx_lt input_sizes h)
  exact h1.imp (fun hab => Nat.le_of_lt hab)

/-- Claim C2, amended: the grouping partitions the discovered input sizes
*that have at least one measurement* (sizes with no data are dropped, per the
counterexample): each such size is in exactly one group, each group's sizes
share a bucket and appear in discovery order (a sublist of `input_sizes`),
and groups are ordered strictly ascending by bucket. -/
theorem C2_partition (input_sizes : List String)
    (data : List ((String × String) × List ℚ)) (hnd : input_sizes.Nodup) :
    (∀ g ∈ group_input_sizes_by_magnitude input_sizes data,
      g ≠ [] ∧ g.Sublist input_sizes ∧
        ∀ a ∈ g, ∀ b ∈ g, sizeBucket data a = sizeBucket data b) ∧
    (∀ s, s ∈ (group_input_sizes_by_magnitude input_sizes data).flatten ↔
      s ∈ input_sizes ∧ contributes data s = true) ∧
    (group_input_sizes_by_magnitude input_sizes data).flatten.Nodup ∧
    (group_input_sizes_by_magnitude input_sizes data).Pairwise
      (fun g h => ∀ a ∈ g, ∀ b ∈ h, sizeBucket data a < sizeBucket data b) := by
  have hknd : (accKeys (input_sizes.foldl (magStep data) [])).Nodup :=
    magFold_keys_nodup data input_sizes [] List.nodup_nil
  have hval : ∀ p ∈ input_sizes.foldl (magStep data) [],
      p.2 = goodFilter data input_sizes p.1 := by
    intro p hp
    have h1 : omVal (input_sizes.foldl (magStep data) []) p.1 = p.2 := omVal_of_mem hknd hp
    have h2 := magFold_omVal data input_sizes [] p.1
    rw [h1] at h2
    simpa using h2
  have hne : ∀ p ∈ input_sizes.foldl (magStep data) [], p.2 ≠ [] :=
    magFold_vals_ne_nil data input_sizes [] (fun p hp => absurd hp (List.not_mem_nil p))
  have hsortid : (input_sizes.foldl (magStep data) []).map
      (fun p => (p.1, p.2.insertionSort (idxLe input_sizes))) =
      input_sizes.foldl (magStep data) [] := by
    have hid : ∀ p ∈ input_sizes.foldl (magStep data) [],
        (p.1, p.2.insertionSort (idxLe input_sizes)) = p := by
      intro p hp
      have hsor : List.Sorted (idxLe input_sizes) p.2 := by
        rw [hval p hp]
        exact sorted_goodFilter data input_sizes hnd p.1
      rw [hsor.insertionSort_eq]
    calc (input_sizes.foldl (magStep data) []).map
          (fun p => (p.1, p.2.insertionSort (idxLe input_sizes)))
        = (input_sizes.foldl (magStep data) []).map id := List.map_congr_left hid
      _ = input_sizes.foldl (magStep data) [] := List.map_id _
  have hgroups : group_input_sizes_by_magnitude input_sizes data =
      ((input_sizes.foldl (magStep data) []).insertionSort keyLe).map (fun p => p.2) := by
    simp only [group_input_sizes_by_magnitude]
    rw [hsortid]
  have hperm : List.Perm ((input_sizes.foldl (magStep data) []).insertionSort keyLe)
      (input_sizes.foldl (magStep data) []) :=
    List.perm_insertionSort keyLe _
  have hsorted : List.Sorted keyLe
      ((input_sizes.foldl (magStep data) []).insertionSort keyLe) :=
    List.sorted_insertionSort keyLe _
  have hknd' : (((input_sizes.foldl (magStep data) []).insertionSort keyLe).map
      (fun p : ℕ × List String => p.1)).Nodup :=
    (List.Perm.nodup_iff (hperm.map (fun p : ℕ × List String => p.1))).mpr hknd
  have hval' : ∀ p ∈ (input_sizes.foldl (magStep data) []).insertionSort keyLe,
      p.2 = goodFilter data input_sizes p.1 :=
    fun p hp => hval p (hperm.mem_iff.mp hp)
  have hne' : ∀ p ∈ (input_sizes.foldl (magStep data) []).insertionSort keyLe, p.2 ≠ [] :=
    fun p hp => hne p (hperm.mem_iff.mp hp)
  have hlt : ((input_sizes.foldl (magStep data) []).insertionSort keyLe).Pairwise
      (fun p q => p.1 < q.1) := by
    have h1 : ((input_sizes.foldl (magStep data) []).insertionSort keyLe).Pairwise
        (fun p q => p.1 ≤ q.1) := hsorted
    have h2 : ((input_sizes.foldl (magStep data) []).insertionSort keyLe).Pairwise
        (fun p q => p.1 ≠ q.1) := List.pairwise_map.mp hknd'
    exact (h1.and h2).imp (fun hab => Nat.lt_of_le_of_ne hab.1 hab.2)
  have hbucket : ∀ p ∈ (input_sizes.foldl (magStep data) []).insertionSort keyLe,
      ∀ x ∈ p.2, sizeBucket data x = p.1 := by
    intro p hp x hx
    rw [hval' p hp] at hx
    have hx2 := (List.mem_filter.mp hx).2
    rw [Bool.and_eq_true] at hx2
    exact beq_iff_eq.mp hx2.2
  have hcontr : ∀ p ∈ (input_sizes.foldl (magStep data) []).insertionSort keyLe,
      ∀ x ∈ p.2, x ∈ input_sizes ∧ contributes data x = true := by
    intro p hp x hx
    rw [hval' p hp] at hx
    have hx1 := List.mem_filter.mp hx
    rw [Bool.and_eq_true] at hx1
    exact ⟨hx1.1, hx1.2.1⟩
  refine ⟨?_, ?_, ?_, ?_⟩
  · intro g hg
    rw [hgroups] at hg
    obtain ⟨p, hp, rfl⟩ := List.mem_map.mp hg
    refine ⟨hne' p hp, ?_, ?_⟩
    · rw [hval' p hp]
      exact List.filter_sublist _
    · intro a ha b hb
      rw [hbucket p hp a ha, hbucket p hp b hb]
  · intro s
    rw [hgroups, List.mem_flatten]
    constructor
    · rintro ⟨g, hg, hs⟩
      obtain ⟨p, hp, rfl⟩ := List.mem_map.mp hg
      exact hcontr p hp s hs
    · rintro ⟨hsin, hcon⟩
      have hkey : sizeBucket data s ∈
          accKeys (input_sizes.foldl (magStep data) []) := by
        rw [magFold_keys_mem data input_sizes []]
        exact Or.inr ⟨s, hsin, by rw [hcon, Bool.true_and]; exact beq_self_eq_true _⟩
      have hkey' : sizeBucket data s ∈
          ((input_sizes.foldl (magStep data) []).insertionSort keyLe).map
            (fun p : ℕ × List String => p.1) :=
        (List.Perm.mem_iff (hperm.map (fun p : ℕ × List String => p.1))).mpr hkey
      obtain ⟨p, hp, hp1⟩ := List.mem_map.mp hkey'
      refine ⟨p.2, List.mem_map.mpr ⟨p, hp, rfl⟩, ?_⟩
      rw [hval' p hp]
      simp only [goodFilter]
      rw [List.mem_filter]
      exact ⟨hsin, by rw [hcon, Bool.true_and, hp1]; exact beq_self_eq_true _⟩
  · rw [hgroups, List.nodup_flatten]
    constructor
    · intro g hg
      obtain ⟨p, hp, rfl⟩ := List.mem_map.mp hg
      rw [hval' p hp]
      exact List.Nodup.filter _ hnd
    · rw [List.pairwise_map]
      refine hlt.imp_of_mem ?_
      intro p q hp hq hpq x hxp hxq
      have h1 := hbucket p hp x hxp
      have h2 := hbucket q hq x hxq
      rw [h1] at h2
      omega
  · rw [hgroups, List.pairwise_map]
    refine hlt.imp_of_mem ?_
    intro p q hp hq hpq a ha b hb
    rw [hbucket p hp a ha, hbucket q hq b hb]
    exact hpq

/-- Witness for `C2_partition` at the discovered lists of
`treeSizeWithoutData`. -/
theorem C2_partition_witness :
    (∀ g ∈ group_input_sizes_by_magnitude ["IS1", "IS2"] [(("IS1", "a"), [5])],
      g ≠ [] ∧ g.Sublist ["IS1", "IS2"] ∧
        ∀ a ∈ g, ∀ b ∈ g,
          sizeBucket [(("IS1", "a"), [5])] a = sizeBucket [(("IS1", "a"), [5])] b) ∧
    (∀ s, s ∈ (group_input_sizes_by_magnitude ["IS1", "IS2"] [(("IS1", "a"), [5])]).flatten ↔
      s ∈ ["IS1", "IS2"] ∧ contributes [(("IS1", "a"), [5])] s = true) ∧
    (group_input_sizes_by_magnitude ["IS1", "IS2"] [(("IS1", "a"), [5])]).flatten.Nodup ∧
    (group_input_sizes_by_magnitude ["IS1", "IS2"] [(("IS1", "a"), [5])]).Pairwise
      (fun g h => ∀ a ∈ g, ∀ b ∈ h,
        sizeBucket [(("IS1", "a"), [5])] a < sizeBucket [(("IS1", "a"), [5])] b) :=
  C2_partition ["IS1", "IS2"] [(("IS1", "a"), [5])] (by decide)

end RuntimesPlot
